import Mathlib

/-!
Verification of the llama client/daemon core (Go sources
`cmd/llama/invoke.go` and `daemon/server.go`) against its design
specification.  Strings from the Go side are modelled as `List Char`
(`'@'` and `':'` and `'/'` are ASCII, so byte indices and character
indices of their first occurrences agree).  External collaborators
(the blob store, the filesystem, the network) are modelled as explicit
environments of results; each Go function becomes a pure Lean function
over such an environment.
-/

abbrev Str := List Char

/-- Split a character list at the first occurrence of `c`:
`some (before, after)` when `c` occurs, `none` otherwise.
Models `strings.Index` / `strings.IndexRune` followed by the slicings
`s[:idx]` and `s[idx+1:]`. -/
def splitFirst (c : Char) : Str → Option (Str × Str)
  | [] => none
  | x :: xs =>
    if x = c then some ([], xs)
    else (splitFirst c xs).map (fun p => (x :: p.1, p.2))

/-- Model of Go `path.IsAbs`: a path is absolute iff it begins with `'/'`. -/
def pathIsAbs : Str → Bool
  | [] => false
  | c :: _ => c = '/'

/-- Strip trailing `'/'` characters; the loop at the top of Go `path.Base`. -/
def stripTrailingSlashes (p : Str) : Str :=
  ((p.reverse).dropWhile (fun c => c = '/')).reverse

/-- The suffix after the last `'/'` (the whole string when there is none);
models `path[strings.LastIndex(path, "/")+1:]`. -/
def afterLastSlash (p : Str) : Str :=
  ((p.reverse).takeWhile (fun c => c ≠ '/')).reverse

/-- Model of Go `path.Base`: `"."` on the empty path, otherwise strip
trailing slashes and keep the last element; `"/"` if only slashes remain. -/
def pathBase (p : Str) : Str :=
  if p = [] then ".".data
  else
    let q := stripTrailingSlashes p
    let r := afterLastSlash q
    if r = [] then "/".data else r

/-- Association-list lookup, modelling a Go `map[string]V` read. -/
def omLookup {α : Type} (m : List (Str × α)) (k : Str) : Option α :=
  match m with
  | [] => none
  | (k', v) :: rest => if k' = k then some v else omLookup rest k

/-- Association-list insert with Go map semantics: replace the value when
the key is present, append otherwise (so keys stay pairwise distinct and
the list length equals Go's `len` of the map). -/
def omInsert {α : Type} (m : List (Str × α)) (k : Str) (v : α) :
    List (Str × α) :=
  match m with
  | [] => [(k, v)]
  | (k', v') :: rest =>
    if k' = k then (k', v) :: rest else (k', v') :: omInsert rest k v

/-- A reference into the content-addressed store (`protocol.Blob`); its
internals are outside the core, so it is an abstract token. -/
structure Blob where
  id : Nat
deriving DecidableEq, Repr

/-- The value placed in the argument vector for one token, before JSON
marshalling: either the plain string (`argSpec` staying the Go `string`)
or a `protocol.Arg` with optional input blob and optional output name. -/
inductive ArgSpec where
  | literal (s : Str)
  | arg (inp : Option Blob) (out : Option Str)
deriving DecidableEq, Repr

/-- Errors produced by `parseArg`, carrying what the Go error message
reports: the offending path for read/store failures, the offending
prefix for an unrecognized argspec. -/
inductive ParseErr where
  | readErr (path : Str)
  | storeErr (path : Str)
  | badPrefix (pfx : Str)
deriving DecidableEq, Repr

/-- The ambient file/store environment of one invocation:
`readFile path` is `none` when `ioutil.ReadFile` fails,
`statMode path` is `none` when `os.Stat` fails (otherwise the file mode),
`newBlob data` is `none` when `protocol.NewBlob` (the store put) fails,
`readBlob b` is `none` when `blob.Read` (the store get) fails, and
`writeFile path data mode` is the success of `ioutil.WriteFile`. -/
structure FsEnv where
  readFile : Str → Option Str
  statMode : Str → Option Nat
  newBlob : Str → Option Blob
  readBlob : Blob → Option Str
  writeFile : Str → Str → Nat → Bool

/-- The OutputMap being built: `none` models the nil Go map. -/
abbrev OutputMap := Option (List (Str × Str))

/-- The output-registration step shared by the `"o"` case and the `"io"`
fallthrough of `parseArg`: take the basename of the path, rename to
`"<len>-<name>"` when the name is already a key of the (non-nil) map,
record the Arg's output name and insert `name ↦ path` into the map. -/
def registerOutput (inp : Option Blob) (outputs : OutputMap) (rest : Str) :
    ArgSpec × OutputMap :=
  let name0 := pathBase rest
  let name :=
    match outputs with
    | some m => if (omLookup m name0).isSome
        then (Nat.repr m.length).data ++ '-' :: name0
        else name0
    | none => name0
  let m := outputs.getD []
  (.arg inp (some name), some (omInsert m name rest))

/-- Model of `parseArg` (invoke.go): split the token at its first `'@'`;
without a split, or with the `'@'` at position 0, the token itself is the
argspec; otherwise dispatch on the prefix (`i`/`io` read and store the
file, `io` and `o` register an output, `raw` passes the rest verbatim,
anything else is an error). -/
def parseArg (env : FsEnv) (outputs : OutputMap) (tok : Str) :
    Except ParseErr (ArgSpec × OutputMap) :=
  match splitFirst '@' tok with
  | none => .ok (.literal tok, outputs)
  | some (pfx, rest) =>
    if pfx = [] then .ok (.literal tok, outputs)
    else if pfx = "i".data ∨ pfx = "io".data then
      match env.readFile rest with
      | none => .error (.readErr rest)
      | some data =>
        match env.newBlob data with
        | none => .error (.storeErr rest)
        | some blob =>
          if pfx = "i".data then .ok (.arg (some blob) none, outputs)
          else .ok (registerOutput (some blob) outputs rest)
    else if pfx = "o".data then .ok (registerOutput none outputs rest)
    else if pfx = "raw".data then .ok (.literal rest, outputs)
    else .error (.badPrefix pfx)

/-- The loop body of `prepareArgs`: encode the tokens left to right,
threading the OutputMap and stopping at the first error. -/
def prepareArgsAux (env : FsEnv) (outputs : OutputMap) :
    List Str → Except ParseErr (List ArgSpec × OutputMap)
  | [] => .ok ([], outputs)
  | a :: rest => do
    let (spec, outputs') ← parseArg env outputs a
    let (specs, outputs'') ← prepareArgsAux env outputs' rest
    .ok (spec :: specs, outputs'')

/-- Model of `prepareArgs`: the OutputMap starts out as the nil map. -/
def prepareArgs (env : FsEnv) (args : List Str) :
    Except ParseErr (List ArgSpec × OutputMap) :=
  prepareArgsAux env none args

/-- One `source:dest` attachment entry (`inputFile` in invoke.go). -/
structure InputFile where
  source : Str
  dest : Str
deriving DecidableEq, Repr

/-- The validation error of `fileList.Set`, carrying the destination the
Go error message names. -/
inductive SetErr where
  | absDest (dest : Str)
deriving DecidableEq, Repr

/-- The source/destination split of `fileList.Set`: split the flag value
at the first `':'` when that `':'` is at a positive index, otherwise the
whole value is both source and destination. -/
def fileListSplit (v : Str) : Str × Str :=
  match splitFirst ':' v with
  | some (s, d) => if s = [] then (v, v) else (s, d)
  | none => (v, v)

/-- Model of `fileList.Set`: reject an absolute destination before
touching anything else, otherwise append the entry to the list. -/
def fileListSet (files : List InputFile) (v : Str) :
    Except SetErr (List InputFile) :=
  let (source, dest) := fileListSplit v
  if pathIsAbs dest then .error (.absDest dest)
  else .ok (files ++ [⟨source, dest⟩])

/-- A `protocol.File`: a blob reference plus the captured file mode. -/
structure FileAttach where
  blob : Blob
  mode : Nat
deriving DecidableEq, Repr

/-- Errors of `fileList.Prepare`, carrying the offending source path for
read/stat failures (as the Go error messages do). -/
inductive PrepErr where
  | readErr (path : Str)
  | statErr (path : Str)
  | storeErr
deriving DecidableEq, Repr

/-- The loop of `fileList.Prepare`: for each entry read the source, stat
its mode, put the bytes, and insert the resulting `File` keyed by the
destination; the first failure aborts the whole batch. -/
def fileListPrepareAux (env : FsEnv) (acc : List (Str × FileAttach)) :
    List InputFile → Except PrepErr (List (Str × FileAttach))
  | [] => .ok acc
  | f :: rest =>
    match env.readFile f.source with
    | none => .error (.readErr f.source)
    | some data =>
      match env.statMode f.source with
      | none => .error (.statErr f.source)
      | some mode =>
        match env.newBlob data with
        | none => .error .storeErr
        | some blob => fileListPrepareAux env (omInsert acc f.dest ⟨blob, mode⟩) rest

/-- Model of `fileList.Prepare`: `none` (the nil map) when the list is
empty, otherwise the prepared attachment map or the first error. -/
def fileListPrepare (env : FsEnv) (files : List InputFile) :
    Except PrepErr (Option (List (Str × FileAttach))) :=
  if files = [] then .ok none
  else (fileListPrepareAux env [] files).map some

/-- One observable step of output reconciliation: the three per-item log
diagnostics and the local write attempt (with the mode it passes). -/
inductive FetchEffect where
  | logUnexpected (key : Str)
  | logReadErr (key : Str)
  | logWriteErr (file : Str)
  | write (file : Str) (data : Str) (mode : Nat)
deriving DecidableEq, Repr

/-- The loop body of `fetchOutputs` for one response output: a key absent
from the OutputMap is logged and skipped, a blob-read failure is logged
and skipped, and otherwise the bytes are written (mode `0644`) with a
write failure merely logged. -/
def fetchOne (env : FsEnv) (outputs : List (Str × Str)) (key : Str)
    (blob : Blob) : List FetchEffect :=
  match omLookup outputs key with
  | none => [.logUnexpected key]
  | some file =>
    match env.readBlob blob with
    | none => [.logReadErr key]
    | some data =>
      .write file data 0o644 ::
        (if env.writeFile file data 0o644 then [] else [.logWriteErr file])

/-- Model of `fetchOutputs`: walk the response outputs, performing the
per-item step on each; every item is processed whatever happened on the
ones before it.  The Go function returns nothing; its behaviour is the
trace of effects. -/
def fetchOutputs (env : FsEnv) (outputs : List (Str × Str)) :
    List (Str × Blob) → List FetchEffect
  | [] => []
  | (key, blob) :: rest =>
    fetchOne env outputs key blob ++ fetchOutputs env outputs rest

/-- The `protocol.InvocationResponse` fields the orchestrator consumes. -/
structure InvocationResponse where
  exitStatus : Int
  stdout : Option Blob
  stderr : Option Blob
  outputs : List (Str × Blob)

/-- The `llama.Invoke` success value: optional captured logs plus the
invocation response. -/
structure InvokeResponse where
  logs : Option Str
  response : InvocationResponse

/-- The `llama.Invoke` failure value (`llama.ErrorReturn` may carry
captured logs). -/
structure InvokeError where
  logs : Option Str

/-- The environment of one `InvokeCommand.Execute` run: the file/store
environment, the result of reading stdin (`none` = read failure), and
the outcome of the single remote dispatch. -/
structure ExecEnv where
  fs : FsEnv
  stdinData : Option Str
  invoke : Except InvokeError InvokeResponse

/-- How `Execute` terminates: `subcommands.ExitFailure` on a local
preparation error, `log.Fatalf` on a remote invocation error, or the
exit status taken from the response. -/
inductive ExecResult where
  | exitFailure
  | fatal
  | exit (code : Int)
deriving DecidableEq, Repr

/-- What one `Execute` run did: its terminal result, whether the remote
dispatch was attempted, and the output-reconciliation trace. -/
structure ExecOut where
  result : ExecResult
  invoked : Bool
  fetched : List FetchEffect
deriving DecidableEq, Repr

/-- Model of `InvokeCommand.Execute`: optionally buffer stdin into the
store, prepare the attachments, encode the arguments (any failure so far
returns `ExitFailure` with no remote call), dispatch once (a remote
error is fatal), then reconcile outputs and return the response's exit
status. -/
def InvokeCommandExecute (env : ExecEnv) (stdinFlag : Bool)
    (files : List InputFile) (args : List Str) : ExecOut :=
  let stdinStep : Option Unit :=
    if stdinFlag then
      match env.stdinData with
      | none => none
      | some data =>
        match env.fs.newBlob data with
        | none => none
        | some _ => some ()
    else some ()
  match stdinStep with
  | none => ⟨.exitFailure, false, []⟩
  | some _ =>
    match (if files ≠ [] then fileListPrepare env.fs files else .ok none) with
    | .error _ => ⟨.exitFailure, false, []⟩
    | .ok _ =>
      match prepareArgs env.fs args with
      | .error _ => ⟨.exitFailure, false, []⟩
      | .ok (_, outputs) =>
        match env.invoke with
        | .error _ => ⟨.fatal, true, []⟩
        | .ok resp =>
          ⟨.exit resp.response.exitStatus, true,
            fetchOutputs env.fs (outputs.getD []) resp.response.outputs⟩

/-- The OS-level environment the daemon reads: environment variables
(`os.Getenv`, the empty string meaning unset) and the user id. -/
structure OsEnv where
  getenv : Str → Str
  uid : Nat

/-- Model of Go `path.Join` on two nonempty, already-clean components as
used in `SocketPath` (where `path.Clean` leaves the joined path as
written): concatenation with a `'/'` separator. -/
def pathJoin2 (a b : Str) : Str := a ++ '/' :: b

/-- Model of `daemon.SocketPath`: the `LLAMA_SOCKET` override when set
and non-empty, else `$HOME/.llama/llama.sock` when `HOME` is set, else
`/run/llama-<uid>/llama.sock`. -/
def SocketPath (env : OsEnv) : Str :=
  if env.getenv "LLAMA_SOCKET".data ≠ [] then env.getenv "LLAMA_SOCKET".data
  else if env.getenv "HOME".data ≠ [] then
    pathJoin2 (pathJoin2 (env.getenv "HOME".data) ".llama".data) "llama.sock".data
  else "/run/llama-".data ++ (Nat.repr env.uid).data ++ "/llama.sock".data

/-- A Go error as the daemon bootstrap distinguishes them: the
`syscall.EADDRINUSE` condition (tested via `errors.Is`) or any other
error, abstracted by a tag. -/
inductive GoErr where
  | addrInUse
  | other (n : Nat)
deriving DecidableEq, Repr

/-- The environment of one `daemon.Start` run: the result of each
external step it may take (`none` = success), and the number of requests
in flight at the moment the context is cancelled. -/
structure DaemonEnv where
  mkdirRes : Option GoErr
  bind1 : Option GoErr
  dialRes : Option GoErr
  pingRes : Option GoErr
  removeRes : Option GoErr
  bind2 : Option GoErr
  inflight : Nat
deriving DecidableEq, Repr

/-- How `daemon.Start` returns: an error, the distinct
`ErrAlreadyRunning` condition, or `nil` after serving — `drained` records
whether every in-flight request had completed when it returned. -/
inductive StartOutcome where
  | fail (e : GoErr)
  | alreadyRunning
  | done (drained : Bool)
deriving DecidableEq, Repr

/-- The externally visible actions of one `daemon.Start` run. -/
inductive DAct where
  | removeSock
  | bindRetry
  | serve
deriving DecidableEq, Repr

/-- Model of `net/http.Server.Shutdown` per its Go documentation:
listeners are closed first (no new connections), then it waits for
active requests — but it returns with the context's error as soon as the
given context is done.  So with an already-cancelled context it returns
immediately, and the drain completes only when nothing was in flight. -/
def httpShutdown (ctxDone : Bool) (inflight : Nat) : Bool :=
  if ctxDone then inflight == 0 else true

/-- Model of `daemon.Start`: make the socket directory, bind; on
`EADDRINUSE` dial and ping — a live daemon yields `ErrAlreadyRunning`, a
ping failure is returned as-is, a dial failure removes the socket file
and retries the bind once; any other bind error is returned.  After a
successful bind it serves until the context is cancelled, then calls
`Shutdown` with that same (already cancelled) context and returns nil. -/
def Start (env : DaemonEnv) : StartOutcome × List DAct :=
  match env.mkdirRes with
  | some e => (.fail e, [])
  | none =>
    match env.bind1 with
    | none => (.done (httpShutdown true env.inflight), [.serve])
    | some .addrInUse =>
      match env.dialRes with
      | none =>
        match env.pingRes with
        | none => (.alreadyRunning, [])
        | some e => (.fail e, [])
      | some _ =>
        match env.removeRes with
        | some e => (.fail e, [])
        | none =>
          match env.bind2 with
          | none =>
            (.done (httpShutdown true env.inflight), [.removeSock, .bindRetry, .serve])
          | some e => (.fail e, [.removeSock, .bindRetry])
    | some e => (.fail e, [])

/-- The output name an encoded argument carries, if any. -/
def argOut : ArgSpec → Option Str
  | .literal _ => none
  | .arg _ o => o

/-- A file/store environment in which every operation fails; the `"o"`
prefix and the literal cases touch none of it. -/
def fsEmpty : FsEnv :=
  ⟨fun _ => none, fun _ => none, fun _ => none, fun _ => none, fun _ _ _ => false⟩

/-- A file/store environment whose store reads yield `"data"` and whose
local writes succeed. -/
def fsWriteOk : FsEnv :=
  ⟨fun _ => none, fun _ => none, fun _ => none,
   fun _ => some "data".data, fun _ _ _ => true⟩

theorem splitFirst_none_iff (c : Char) (s : Str) :
    splitFirst c s = none ↔ c ∉ s := by
  induction s with
  | nil => simp [splitFirst]
  | cons x xs ih =>
    by_cases hx : x = c
    · subst hx
      simp [splitFirst]
    · simp [splitFirst, hx, Option.map_eq_none', ih, Ne.symm hx]

theorem splitFirst_some (c : Char) :
    ∀ {s : Str} {pr : Str × Str}, splitFirst c s = some pr →
      s = pr.1 ++ c :: pr.2 ∧ c ∉ pr.1 := by
  intro s
  induction s with
  | nil => intro pr h; simp [splitFirst] at h
  | cons x xs ih =>
    intro pr h
    by_cases hx : x = c
    · subst hx
      have h' : some (([] : Str), xs) = some pr := by simpa [splitFirst] using h
      obtain rfl := Option.some.inj h'
      simp
    · simp only [splitFirst, if_neg hx, Option.map_eq_some'] at h
      obtain ⟨q, hsplit, hq⟩ := h
      subst hq
      obtain ⟨hs, hnp⟩ := ih hsplit
      constructor
      · simpa using congrArg (x :: ·) hs
      · simp [Ne.symm hx, hnp]

theorem splitFirst_append (c : Char) :
    ∀ {p : Str}, c ∉ p → ∀ r : Str, splitFirst c (p ++ c :: r) = some (p, r) := by
  intro p
  induction p with
  | nil => intro _ r; simp [splitFirst]
  | cons x xs ih =>
    intro hp r
    have hx : ¬x = c := fun h => hp (by simp [h])
    have hxs : c ∉ xs := fun h => hp (by simp [h])
    simp [splitFirst, hx, ih hxs r]

theorem parseArg_no_at (env : FsEnv) (outs : OutputMap) {tok : Str}
    (h : '@' ∉ tok) : parseArg env outs tok = .ok (.literal tok, outs) := by
  simp [parseArg, (splitFirst_none_iff '@' tok).mpr h]

theorem parseArg_at_head (env : FsEnv) (outs : OutputMap) (r : Str) :
    parseArg env outs ('@' :: r) = .ok (.literal ('@' :: r), outs) := by
  simp [parseArg, splitFirst]

theorem parseArg_raw (env : FsEnv) (outs : OutputMap) (r : Str) :
    parseArg env outs ("raw".data ++ '@' :: r) = .ok (.literal r, outs) := by
  have hsplit : splitFirst '@' ('r' :: 'a' :: 'w' :: '@' :: r)
      = some (['r', 'a', 'w'], r) := by
    simp [splitFirst]
  simp [parseArg, hsplit]

theorem parseArg_not_literal (env : FsEnv) (outs : OutputMap) {tok pfx rest : Str}
    (hsplit : splitFirst '@' tok = some (pfx, rest)) (hne : pfx ≠ [])
    (hnraw : pfx ≠ "raw".data) :
    ∀ s outs2, parseArg env outs tok ≠ .ok (.literal s, outs2) := by
  intro s outs2 h
  by_cases hio : pfx = "i".data ∨ pfx = "io".data
  · rcases hrf : env.readFile rest with _ | data
    · rcases hio with rfl | rfl <;> simp [parseArg, hsplit, hrf] at h
    · rcases hnb : env.newBlob data with _ | blob
      · rcases hio with rfl | rfl <;> simp [parseArg, hsplit, hrf, hnb] at h
      · rcases hio with rfl | rfl <;>
          simp [parseArg, hsplit, hrf, hnb, registerOutput] at h
  · by_cases ho : pfx = "o".data
    · subst ho
      simp [parseArg, hsplit, registerOutput] at h
    · simp [parseArg, hsplit, hne, hio, ho, hnraw] at h

/-- C6: an argument token is encoded as a Literal exactly when it has no
`@`, or its first `@` is at position 0 (Literal of the whole token), or
the prefix before its first `@` is `raw` (Literal of the rest, with no
file access); the split is at the first `@` only, so later `@` characters
stay in the rest. -/
theorem parseArg_literal_characterization (env : FsEnv) (outs : OutputMap)
    (tok : Str) :
    ((∃ s outs2, parseArg env outs tok = .ok (.literal s, outs2))
      ↔ ('@' ∉ tok ∨ (∃ r, tok = '@' :: r) ∨ (∃ r, tok = "raw".data ++ '@' :: r)))
    ∧ ('@' ∉ tok → parseArg env outs tok = .ok (.literal tok, outs))
    ∧ (∀ r, tok = '@' :: r → parseArg env outs tok = .ok (.literal tok, outs))
    ∧ (∀ r, tok = "raw".data ++ '@' :: r →
        parseArg env outs tok = .ok (.literal r, outs)) := by
  refine ⟨⟨?_, ?_⟩, ?_, ?_, ?_⟩
  · rintro ⟨s, outs2, h⟩
    rcases hsplit : splitFirst '@' tok with _ | ⟨pfx, rest⟩
    · exact .inl ((splitFirst_none_iff '@' tok).mp hsplit)
    · obtain ⟨htok, hpfx⟩ := splitFirst_some '@' hsplit
      by_cases hemp : pfx = []
      · refine .inr (.inl ⟨rest, ?_⟩)
        simp [htok, hemp]
      · by_cases hraw : pfx = "raw".data
        · refine .inr (.inr ⟨rest, ?_⟩)
          simp [htok, hraw]
        · exact absurd h (parseArg_not_literal env outs hsplit hemp hraw _ _)
  · rintro (h | ⟨r, rfl⟩ | ⟨r, rfl⟩)
    · exact ⟨tok, outs, parseArg_no_at env outs h⟩
    · exact ⟨_, outs, parseArg_at_head env outs r⟩
    · exact ⟨r, outs, parseArg_raw env outs r⟩
  · exact fun h => parseArg_no_at env outs h
  · rintro r rfl
    exact parseArg_at_head env outs r
  · rintro r rfl
    exact parseArg_raw env outs r

/-- C6 witness: `raw@1@2` encodes to `Literal "1@2"` — the rest is taken
verbatim and its later `@` stays in place. -/
theorem parseArg_literal_characterization_witness :
    parseArg fsEmpty none ("raw".data ++ '@' :: "1@2".data)
      = .ok (.literal "1@2".data, none) :=
  (parseArg_literal_characterization fsEmpty none _).2.2.2 "1@2".data rfl

/-- C5: an `i`/`io` token whose file cannot be read yields a fatal error
naming the path, an unrecognized prefix yields a fatal error naming the
prefix, and when argument preparation fails the orchestrator returns
failure without attempting the remote dispatch. -/
theorem parseArg_fatal_local_errors :
    (∀ (env : FsEnv) (outs : OutputMap) (pfx rest : Str),
       (pfx = "i".data ∨ pfx = "io".data) → env.readFile rest = none →
       parseArg env outs (pfx ++ '@' :: rest) = .error (.readErr rest))
    ∧ (∀ (env : FsEnv) (outs : OutputMap) (pfx rest : Str),
       '@' ∉ pfx → pfx ≠ [] → pfx ≠ "i".data → pfx ≠ "io".data →
       pfx ≠ "o".data → pfx ≠ "raw".data →
       parseArg env outs (pfx ++ '@' :: rest) = .error (.badPrefix pfx))
    ∧ (∀ (ee : ExecEnv) (sf : Bool) (files : List InputFile) (args : List Str)
       (e : ParseErr), prepareArgs ee.fs args = .error e →
       (InvokeCommandExecute ee sf files args).invoked = false
       ∧ (InvokeCommandExecute ee sf files args).result = .exitFailure) := by
  refine ⟨?_, ?_, ?_⟩
  · intro env outs pfx rest hio hrf
    rcases hio with rfl | rfl
    · have hsplit : splitFirst '@' ('i' :: '@' :: rest) = some (['i'], rest) := by
        simp [splitFirst]
      simp [parseArg, hsplit, hrf]
    · have hsplit : splitFirst '@' ('i' :: 'o' :: '@' :: rest)
          = some (['i', 'o'], rest) := by
        simp [splitFirst]
      simp [parseArg, hsplit, hrf]
  · intro env outs pfx rest hat hne hi hio ho hraw
    have hsplit := splitFirst_append '@' hat rest
    simp [parseArg, hsplit, hne, hi, hio, ho, hraw]
  · intro ee sf files args e hprep
    have heq : InvokeCommandExecute ee sf files args = ⟨.exitFailure, false, []⟩ := by
      simp only [InvokeCommandExecute]
      split
      · rfl
      · split
        · rfl
        · split
          · rfl
          · rename_i specsOuts h
            rw [hprep] at h
            cases h
    rw [heq]
    exact ⟨rfl, rfl⟩

/-- C5 witness: with an environment whose file reads fail, `i@foo` is a
fatal error naming `foo`, `zz@foo` is a fatal error naming `zz`, and the
orchestrator never dispatches. -/
theorem parseArg_fatal_local_errors_witness :
    parseArg fsEmpty none ("i".data ++ '@' :: "foo".data)
      = .error (.readErr "foo".data)
    ∧ parseArg fsEmpty none ("zz".data ++ '@' :: "foo".data)
      = .error (.badPrefix "zz".data)
    ∧ (InvokeCommandExecute ⟨fsEmpty, none, .error ⟨none⟩⟩ false []
        ["i".data ++ '@' :: "foo".data]).invoked = false :=
  ⟨parseArg_fatal_local_errors.1 fsEmpty none "i".data "foo".data (Or.inl rfl) rfl,
   parseArg_fatal_local_errors.2.1 fsEmpty none "zz".data "foo".data (by decide)
     (by decide) (by decide) (by decide) (by decide) (by decide),
   (parseArg_fatal_local_errors.2.2 ⟨fsEmpty, none, .error ⟨none⟩⟩ false []
     ["i".data ++ '@' :: "foo".data] (.readErr "foo".data) rfl).1⟩

theorem invokeCommandExecute_cases (ee : ExecEnv) (sf : Bool)
    (files : List InputFile) (args : List Str) :
    InvokeCommandExecute ee sf files args = ⟨.exitFailure, false, []⟩
    ∨ (∃ specs outputs, prepareArgs ee.fs args = .ok (specs, outputs)
       ∧ ((∃ e, ee.invoke = .error e
            ∧ InvokeCommandExecute ee sf files args = ⟨.fatal, true, []⟩)
          ∨ (∃ resp, ee.invoke = .ok resp
             ∧ InvokeCommandExecute ee sf files args
               = ⟨.exit resp.response.exitStatus, true,
                  fetchOutputs ee.fs (outputs.getD []) resp.response.outputs⟩))) := by
  simp only [InvokeCommandExecute]
  split
  · exact .inl rfl
  · split
    · exact .inl rfl
    · split
      · exact .inl rfl
      · split
        · rename_i fst outs hprep x e hinv
          exact .inr ⟨fst, outs, hprep, .inl ⟨e, hinv, rfl⟩⟩
        · rename_i fst outs hprep x resp hinv
          exact .inr ⟨fst, outs, hprep, .inr ⟨resp, hinv, rfl⟩⟩

theorem executeResult_invoke_ok (ee : ExecEnv) (sf : Bool)
    (files : List InputFile) (args : List Str) (resp : InvokeResponse)
    (hinv : ee.invoke = .ok resp)
    (hdisp : (InvokeCommandExecute ee sf files args).invoked = true) :
    (InvokeCommandExecute ee sf files args).result
      = .exit resp.response.exitStatus := by
  rcases invokeCommandExecute_cases ee sf files args with h | ⟨specs, outs, hprep, h | h⟩
  · rw [h] at hdisp
    cases hdisp
  · obtain ⟨e, hiv, heq⟩ := h
    rw [hinv] at hiv
    cases hiv
  · obtain ⟨resp', hiv, heq⟩ := h
    rw [hinv] at hiv
    obtain rfl := Except.ok.inj hiv
    rw [heq]

/-- C9: whenever the remote dispatch is attempted and succeeds, the
command's final outcome code is exactly the response's exit status,
whatever the output/stdout/stderr reconciliation environment did. -/
theorem execute_exit_status (ee : ExecEnv) (sf : Bool)
    (files : List InputFile) (args : List Str) (resp : InvokeResponse)
    (hinv : ee.invoke = .ok resp)
    (hdisp : (InvokeCommandExecute ee sf files args).invoked = true) :
    (InvokeCommandExecute ee sf files args).result
      = .exit resp.response.exitStatus :=
  executeResult_invoke_ok ee sf files args resp hinv hdisp

/-- C9 witness: a dispatch that returns exit status 3 (in an environment
where every store read and local write fails) still makes the command
exit with 3. -/
theorem execute_exit_status_witness :
    (InvokeCommandExecute ⟨fsEmpty, none, .ok ⟨none, ⟨3, none, none, []⟩⟩⟩
      false [] []).result = .exit 3 :=
  execute_exit_status ⟨fsEmpty, none, .ok ⟨none, ⟨3, none, none, []⟩⟩⟩
    false [] [] ⟨none, ⟨3, none, none, []⟩⟩ rfl rfl

theorem fetchOne_modes (env : FsEnv) (outs : List (Str × Str)) (key : Str)
    (blob : Blob) :
    ∀ f d m, FetchEffect.write f d m ∈ fetchOne env outs key blob → m = 0o644 := by
  intro f d m h
  rcases hl : omLookup outs key with _ | file
  · simp [fetchOne, hl] at h
  · rcases hr : env.readBlob blob with _ | data
    · simp [fetchOne, hl, hr] at h
    · by_cases hw : env.writeFile file data 0o644
      · simp [fetchOne, hl, hr, hw] at h
        omega
      · simp [fetchOne, hl, hr, hw] at h
        omega

/-- C10: every local write performed by output reconciliation passes the
fixed permission mode `0644`, whatever the environment reports about
remote modes or prior local state. -/
theorem fetchOutputs_write_mode (env : FsEnv) (outs : List (Str × Str))
    (resp : List (Str × Blob)) (f d : Str) (m : Nat)
    (h : FetchEffect.write f d m ∈ fetchOutputs env outs resp) : m = 0o644 := by
  induction resp with
  | nil => simp [fetchOutputs] at h
  | cons kv rest ih =>
    obtain ⟨key, blob⟩ := kv
    simp only [fetchOutputs] at h
    rcases List.mem_append.mp h with h1 | h2
    · exact fetchOne_modes env outs key blob f d m h1
    · exact ih h2

/-- C10 witness: a successfully reconciled output is written with mode
`0644` (420 decimal). -/
theorem fetchOutputs_write_mode_witness :
    FetchEffect.write "f".data "data".data 420
      ∈ fetchOutputs fsWriteOk [("k".data, "f".data)] [("k".data, ⟨0⟩)]
    ∧ (420 : Nat) = 0o644 :=
  ⟨by decide,
   fetchOutputs_write_mode fsWriteOk [("k".data, "f".data)] [("k".data, ⟨0⟩)]
     "f".data "data".data 420 (by decide)⟩

/-- C4: output reconciliation is soft per item — an unknown output name
is logged and skipped, a fetch failure is logged and skipped, a write
failure is logged, and in every case the remaining outputs are still
processed (reconciling `l1 ++ l2` always reconciles all of `l2`); and
once the remote call has succeeded the command outcome is the response's
exit status no matter what reconciliation encountered. -/
theorem fetchOutputs_soft_per_item (env : FsEnv) (outs : List (Str × Str)) :
    (∀ l1 l2, fetchOutputs env outs (l1 ++ l2)
       = fetchOutputs env outs l1 ++ fetchOutputs env outs l2)
    ∧ (∀ key blob rest, omLookup outs key = none →
        fetchOutputs env outs ((key, blob) :: rest)
          = .logUnexpected key :: fetchOutputs env outs rest)
    ∧ (∀ key blob rest file, omLookup outs key = some file →
        env.readBlob blob = none →
        fetchOutputs env outs ((key, blob) :: rest)
          = .logReadErr key :: fetchOutputs env outs rest)
    ∧ (∀ key blob rest file data, omLookup outs key = some file →
        env.readBlob blob = some data →
        env.writeFile file data 0o644 = false →
        fetchOutputs env outs ((key, blob) :: rest)
          = .write file data 0o644 :: .logWriteErr file
            :: fetchOutputs env outs rest)
    ∧ (∀ (ee : ExecEnv) (sf : Bool) (files : List InputFile) (args : List Str)
        (resp : InvokeResponse), ee.invoke = .ok resp →
        (InvokeCommandExecute ee sf files args).invoked = true →
        (InvokeCommandExecute ee sf files args).result
          = .exit resp.response.exitStatus) := by
  refine ⟨?_, ?_, ?_, ?_, ?_⟩
  · intro l1 l2
    induction l1 with
    | nil => simp [fetchOutputs]
    | cons kv r ih =>
      obtain ⟨k, b⟩ := kv
      simp [fetchOutputs, ih]
  · intro key blob rest h
    simp [fetchOutputs, fetchOne, h]
  · intro key blob rest file h1 h2
    simp [fetchOutputs, fetchOne, h1, h2]
  · intro key blob rest file data h1 h2 h3
    simp [fetchOutputs, fetchOne, h1, h2, h3]
  · intro ee sf files args resp hinv hdisp
    exact executeResult_invoke_ok ee sf files args resp hinv hdisp

/-- C4 witness: a response output whose name is not in the OutputMap is
logged as unexpected and skipped, leaving nothing else to process. -/
theorem fetchOutputs_soft_per_item_witness :
    fetchOutputs fsEmpty [] [("k".data, (⟨0⟩ : Blob))]
      = [.logUnexpected "k".data] :=
  (fetchOutputs_soft_per_item fsEmpty []).2.1 "k".data ⟨0⟩ [] rfl

/-- C1 counterexample: encoding `["o@2-x", "o@x", "o@x"]` makes the
third token's synthesized name `2-x` collide with the first token's key —
the first OutputMap entry is overwritten and two Args carry the same
output name, so the registered output names are not all distinct. -/
theorem outputName_rename_collision_cex :
    prepareArgs fsEmpty ["o@2-x".data, "o@x".data, "o@x".data]
      = .ok ([.arg none (some "2-x".data), .arg none (some "x".data),
              .arg none (some "2-x".data)],
             some [("2-x".data, "x".data), ("x".data, "x".data)])
    ∧ ¬ ([ArgSpec.arg none (some "2-x".data), .arg none (some "x".data),
          .arg none (some "2-x".data)].map argOut).Pairwise (· ≠ ·) :=
  ⟨rfl, by decide⟩

/-- C1 (amended): when the basename already exists as a key in the
(non-nil) OutputMap, the registered name is `"<count>-<name>"` with
`<count>` the number of entries already registered; in the cited example
`["o@out.txt", "o@out.txt"]` the OutputMap comes out as
`{out.txt ↦ out.txt, 1-out.txt ↦ out.txt}` with the two Args' output
names distinct — though distinctness does not hold for every invocation
(the synthesized name can collide with an existing key). -/
theorem outputName_rename_rule :
    (∀ (inp : Option Blob) (m : List (Str × Str)) (rest : Str),
       (omLookup m (pathBase rest)).isSome = true →
       registerOutput inp (some m) rest
         = (.arg inp (some ((Nat.repr m.length).data ++ '-' :: pathBase rest)),
            some (omInsert m ((Nat.repr m.length).data ++ '-' :: pathBase rest)
              rest)))
    ∧ (prepareArgs fsEmpty ["o@out.txt".data, "o@out.txt".data]
        = .ok ([.arg none (some "out.txt".data),
                .arg none (some "1-out.txt".data)],
               some [("out.txt".data, "out.txt".data),
                     ("1-out.txt".data, "out.txt".data)])
       ∧ ("out.txt".data : Str) ≠ "1-out.txt".data) := by
  refine ⟨?_, rfl, by decide⟩
  intro inp m rest h
  simp [registerOutput, h]

/-- C1 witness: registering `o@x` against a map already holding key `x`
(one entry) renames the output to `1-x`. -/
theorem outputName_rename_rule_witness :
    registerOutput none (some [("x".data, "x".data)]) "x".data
      = (.arg none (some "1-x".data),
         some [("x".data, "x".data), ("1-x".data, "x".data)]) :=
  (outputName_rename_rule.1 none [("x".data, "x".data)] "x".data
    (by decide)).trans (by decide)

/-- C7: an attachment value whose destination (the part after the first
`:`, or the whole value) is absolute fails validation with an error
naming that destination, and no entry is appended; an entry is appended
only when the destination is relative.  Validation touches no file
environment at all (the model of `Set` takes none). -/
theorem fileListSet_absolute_dest (files : List InputFile) (v : Str) :
    (∀ src dest, fileListSplit v = (src, dest) → pathIsAbs dest = true →
       fileListSet files v = .error (.absDest dest))
    ∧ (∀ files2, fileListSet files v = .ok files2 →
       pathIsAbs (fileListSplit v).2 = false
       ∧ files2 = files ++ [⟨(fileListSplit v).1, (fileListSplit v).2⟩]) := by
  constructor
  · intro src dest hsplit habs
    simp [fileListSet, hsplit, habs]
  · intro files2 hok
    rcases hsp : fileListSplit v with ⟨src, dest⟩
    by_cases habs : pathIsAbs dest
    · simp [fileListSet, hsp, habs] at hok
    · simp [fileListSet, hsp, habs] at hok
      simp [hsp, habs, hok]

/-- C7 witness: the attachment value `x:/etc/passwd` has absolute
destination `/etc/passwd` and is rejected with an error naming it. -/
theorem fileListSet_absolute_dest_witness :
    fileListSet [] "x:/etc/passwd".data
      = .error (.absDest "/etc/passwd".data) :=
  (fileListSet_absolute_dest [] "x:/etc/passwd".data).1
    "x".data "/etc/passwd".data (by decide) (by decide)

/-- C8: the daemon endpoint path is resolved with strict precedence —
the `LLAMA_SOCKET` override when set and non-empty, else
`$HOME/.llama/llama.sock` when a home directory is resolvable, else
`/run/llama-<uid>/llama.sock`. -/
theorem socketPath_precedence (env : OsEnv) :
    (env.getenv "LLAMA_SOCKET".data ≠ [] →
       SocketPath env = env.getenv "LLAMA_SOCKET".data)
    ∧ (env.getenv "LLAMA_SOCKET".data = [] → env.getenv "HOME".data ≠ [] →
       SocketPath env = env.getenv "HOME".data ++ "/.llama/llama.sock".data)
    ∧ (env.getenv "LLAMA_SOCKET".data = [] → env.getenv "HOME".data = [] →
       SocketPath env
         = "/run/llama-".data ++ (Nat.repr env.uid).data
           ++ "/llama.sock".data) := by
  refine ⟨?_, ?_, ?_⟩
  · intro h
    simp [SocketPath, h]
  · intro h1 h2
    simp [SocketPath, h1, h2, pathJoin2]
  · intro h1 h2
    simp [SocketPath, h1, h2]

/-- C8 witness: with no override and `HOME=/home/u`, the endpoint is
`/home/u/.llama/llama.sock`; the theorem's override and fallback cases
are exercised by the hypotheses being decidably discharged. -/
theorem socketPath_precedence_witness :
    SocketPath ⟨fun v => if v = "HOME".data then "/home/u".data else [], 7⟩
      = "/home/u".data ++ "/.llama/llama.sock".data :=
  (socketPath_precedence
    ⟨fun v => if v = "HOME".data then "/home/u".data else [], 7⟩).2.1
    (by decide) (by decide)

/-- C2 counterexample: when the bind hits `EADDRINUSE`, the dial
succeeds, but the ping then fails, `Start` returns the ping error to the
caller — it does not remove the endpoint file and does not retry the
bind, contradicting "if the probe fails for any reason ... the stale
endpoint file is removed and the bind is retried". -/
theorem start_ping_failure_cex :
    Start ⟨none, some .addrInUse, none, some (.other 7), none, none, 0⟩
      = (.fail (.other 7), [])
    ∧ DAct.removeSock
      ∉ (Start ⟨none, some .addrInUse, none, some (.other 7), none, none, 0⟩).2
    ∧ (Start ⟨none, some .addrInUse, none, some (.other 7), none, none,
        0⟩).2.count .bindRetry = 0 :=
  ⟨rfl, by decide, by decide⟩

/-- C2 (amended): on a bind conflict, a successful dial+ping yields the
distinct "already running" condition without binding; a failed dial
(connection refused) removes the stale endpoint file and retries the
bind exactly once, with successful recovery not reported as an error;
but a failed ping after a successful dial returns that error without
removal or retry. -/
theorem start_stale_recovery (env : DaemonEnv) (hmk : env.mkdirRes = none)
    (hb : env.bind1 = some .addrInUse) :
    (env.dialRes = none → env.pingRes = none → Start env = (.alreadyRunning, []))
    ∧ (∀ e, env.dialRes = none → env.pingRes = some e →
        Start env = (.fail e, []))
    ∧ (∀ d, env.dialRes = some d → env.removeRes = none →
        ((Start env).2.count .bindRetry = 1
         ∧ DAct.removeSock ∈ (Start env).2
         ∧ (env.bind2 = none →
             (Start env).1 = .done (httpShutdown true env.inflight))
         ∧ (∀ e, env.bind2 = some e → (Start env).1 = .fail e))) := by
  refine ⟨?_, ?_, ?_⟩
  · intro h1 h2
    simp [Start, hmk, hb, h1, h2]
  · intro e h1 h2
    simp [Start, hmk, hb, h1, h2]
  · intro d h1 h2
    rcases hb2 : env.bind2 with _ | e
    · have hS : Start env
          = (.done (httpShutdown true env.inflight),
             [.removeSock, .bindRetry, .serve]) := by
        simp [Start, hmk, hb, h1, h2, hb2]
      refine ⟨?_, ?_, ?_, ?_⟩
      · rw [hS]
        rfl
      · rw [hS]
        exact List.Mem.head _
      · intro _
        rw [hS]
      · intro e' he'
        cases he'
    · have hS : Start env = (.fail e, [.removeSock, .bindRetry]) := by
        simp [Start, hmk, hb, h1, h2, hb2]
      refine ⟨?_, ?_, ?_, ?_⟩
      · rw [hS]
        rfl
      · rw [hS]
        exact List.Mem.head _
      · intro hnone
        cases hnone
      · intro e' he'
        obtain rfl := Option.some.inj he'
        rw [hS]

/-- C2 witness: with mkdir succeeding, the first bind in use, and the
dial failing, the stale file is removed, the bind is retried exactly
once, and (the retry succeeding, nothing in flight) `Start` serves and
returns without reporting an error. -/
theorem start_stale_recovery_witness :
    (Start ⟨none, some .addrInUse, some (.other 1), none, none, none,
      0⟩).2.count .bindRetry = 1
    ∧ DAct.removeSock
      ∈ (Start ⟨none, some .addrInUse, some (.other 1), none, none, none, 0⟩).2
    ∧ (Start ⟨none, some .addrInUse, some (.other 1), none, none, none,
        0⟩).1 = .done true := by
  have h := (start_stale_recovery
    ⟨none, some .addrInUse, some (.other 1), none, none, none, 0⟩
    rfl rfl).2.2 (.other 1) rfl rfl
  exact ⟨h.1, h.2.1, h.2.2.1 rfl⟩

/-- C3 (code bug): after cancellation the daemon passes the
already-cancelled context to `Shutdown`, so `Start` returns while a
request is still in flight (`drained = false` whenever one was active);
the drain completes only when nothing was in flight. -/
theorem start_shutdown_not_drained :
    Start ⟨none, none, none, none, none, none, 1⟩ = (.done false, [.serve])
    ∧ httpShutdown true 1 = false
    ∧ Start ⟨none, none, none, none, none, none, 0⟩ = (.done true, [.serve]) :=
  ⟨rfl, rfl, rfl⟩
